import Mathlib

/-!
Verification of the HotStuff consensus core of this repository.

Part I embeds the pacemaker (package pacemaker, type AdrenalinePaceMaker)
from consensus/hotstuff: the state is the struct fields, and every call to a
collaborator (the timeout controller, the notifier) is recorded in an explicit
trace of actions, so that theorems can speak about which external calls a
transition performs. A Go panic is modelled as the result None.

Part II embeds the weighted signature aggregator
(package signature, type WeightedSignatureAggregator).
-/

/-- Timeout modes of the pacemaker timer (model.ReplicaTimeout and
model.VoteCollectionTimeout in the source). -/
inductive TimeoutMode where
  | replicaTimeout
  | voteCollectionTimeout
deriving DecidableEq, Repr

/-- Timer metadata returned by the timeout controller when a timer is started
(model.TimerInfo: mode and view; the deadline is timing data outside the model). -/
structure TimerInfo where
  mode : TimeoutMode
  view : Nat
deriving DecidableEq, Repr

/-- Modelled from the spec: the timeout controller implementation
(consensus/hotstuff/pacemaker/timeout.Controller) is not part of the sources at
hand; only its callers are. Per the spec, StartTimeout(mode, view) begins a new
timer for the given view and mode, resetting any prior timer, and returns the
timer metadata; the controller also owns an adaptive timeout duration adjusted
by OnTimeout and OnProgressBeforeTimeout. Only the timer metadata is kept as
state here; the duration arithmetic (floating point, no claim depends on it) is
recorded purely as emitted actions. -/
structure Controller where
  timerInfo : Option TimerInfo
deriving DecidableEq, Repr

/-- Modelled from the spec: StartTimeout resets the timer to the given mode and
view and returns the new timer metadata. -/
def Controller.startTimeout (c : Controller) (mode : TimeoutMode) (view : Nat) :
    Controller × TimerInfo :=
  let _ := c
  (⟨some ⟨mode, view⟩⟩, ⟨mode, view⟩)

/-- Quorum certificate as consumed by the pacemaker (model.QuorumCertificate):
only the view and the block id are relevant to view progression. -/
structure QuorumCertificate where
  view : Nat
  blockID : Nat
deriving DecidableEq, Repr

/-- Block as consumed by the pacemaker (model.Block): its view and the QC for
its parent. -/
structure Block where
  blockID : Nat
  view : Nat
  qc : QuorumCertificate
deriving DecidableEq, Repr

/-- Event returned by the pacemaker when the current view changes
(model.NewViewEvent). -/
structure NewViewEvent where
  view : Nat
deriving DecidableEq, Repr

/-- Observable external calls made by the pacemaker during one operation, in
order: calls into the timeout controller and notifications to the notifier.
The constructor putLivenessData stands for a call to the Persister collaborator
(hotstuff.Persister.PutLivenessData); it is part of the vocabulary so that
statements about persistence of view transitions can be expressed. -/
inductive PMAction where
  | startTimeout (mode : TimeoutMode) (view : Nat)
  | onStartingTimeout (mode : TimeoutMode) (view : Nat)
  | onSkippedAhead (newView : Nat)
  | onReachedTimeout (info : Option TimerInfo)
  | ctlOnTimeout
  | onProgressBeforeTimeout
  | adrenaline
  | putLivenessData (view : Nat)
deriving DecidableEq, Repr

/-- Test whether an action is a persistence call. -/
def PMAction.isPersist : PMAction → Bool
  | .putLivenessData _ => true
  | _ => false

/-- State of the pacemaker (struct AdrenalinePaceMaker): the current view, the
timeout controller, and the started flag guarding Start. The notifier holds no
state; its calls appear in the action trace. -/
structure AdrenalinePaceMaker where
  currentView : Nat
  timeoutControl : Controller
  started : Bool
deriving DecidableEq, Repr

/-- Constructor pacemaker.New: fails with a model.ErrorConfiguration when
startView < 1 (view 0 is reserved for the genesis block), otherwise returns the
pacemaker at startView with the started flag unset. -/
def pacemakerNew (startView : Nat) (timeoutController : Controller) :
    Except Unit AdrenalinePaceMaker :=
  if startView < 1 then .error ()
  else .ok ⟨startView, timeoutController, false⟩

/-- Method gotoView: panics (None) if newView ≤ currentView; otherwise notifies
OnSkippedAhead when skipping more than one view, updates the current view,
starts a fresh ReplicaTimeout timer via the controller, notifies
OnStartingTimeout, and returns a NewViewEvent for the new view. -/
def AdrenalinePaceMaker.gotoView (p : AdrenalinePaceMaker) (newView : Nat) :
    Option (AdrenalinePaceMaker × List PMAction × NewViewEvent) :=
  if newView ≤ p.currentView then none
  else
    let skipped : List PMAction :=
      if p.currentView + 1 < newView then [.onSkippedAhead newView] else []
    let st := p.timeoutControl.startTimeout .replicaTimeout newView
    some ({ p with currentView := newView, timeoutControl := st.1 },
          skipped ++ [.startTimeout .replicaTimeout newView,
                      .onStartingTimeout .replicaTimeout newView],
          ⟨newView⟩)

/-- Accessor CurView. -/
def AdrenalinePaceMaker.curView (p : AdrenalinePaceMaker) : Nat :=
  p.currentView

/-- Method UpdateCurViewWithQC: a QC with view below the current view is stale
and ignored; otherwise the controller records progress (OnProgressBeforeTimeout,
Adrenaline) and the pacemaker moves to view qc.View + 1. -/
def AdrenalinePaceMaker.updateCurViewWithQC (p : AdrenalinePaceMaker)
    (qc : QuorumCertificate) :
    Option (AdrenalinePaceMaker × List PMAction × Option NewViewEvent × Bool) :=
  if qc.view < p.currentView then some (p, [], none, false)
  else
    (p.gotoView (qc.view + 1)).map fun r =>
      (r.1, [.onProgressBeforeTimeout, .adrenaline] ++ r.2.1, some r.2.2, true)

/-- Method actOnBlockForCurView: releases adrenaline when the block is built on
a QC for the previous view; a leader for the next view starts the vote
collection timer and stays in the view; otherwise the pacemaker records
progress when synchronized and moves on to the next view. -/
def AdrenalinePaceMaker.actOnBlockForCurView (p : AdrenalinePaceMaker)
    (block : Block) (isLeaderForNextView : Bool) :
    Option (AdrenalinePaceMaker × List PMAction × Option NewViewEvent × Bool) :=
  let a1 : List PMAction :=
    if block.qc.view + 1 = p.currentView then [.adrenaline] else []
  if isLeaderForNextView then
    let st := p.timeoutControl.startTimeout .voteCollectionTimeout p.currentView
    some ({ p with timeoutControl := st.1 },
          a1 ++ [.startTimeout .voteCollectionTimeout p.currentView,
                 .onStartingTimeout .voteCollectionTimeout p.currentView],
          none, false)
  else
    let a2 : List PMAction :=
      if block.qc.view + 1 = p.currentView then [.onProgressBeforeTimeout] else []
    (p.gotoView (p.currentView + 1)).map fun r =>
      (r.1, a1 ++ a2 ++ r.2.1, some r.2.2, true)

/-- Method UpdateCurViewWithBlock: first fast-forwards on the QC embedded in
the block; if the block is for the (possibly updated) current view, it is acted
on unless the vote collection phase for this view has already started, in which
case the timer is not restarted (reading the timer mode dereferences the
controller timer metadata, a panic when no timer was ever started). -/
def AdrenalinePaceMaker.updateCurViewWithBlock (p : AdrenalinePaceMaker)
    (block : Block) (isLeaderForNextView : Bool) :
    Option (AdrenalinePaceMaker × List PMAction × Option NewViewEvent × Bool) :=
  (p.updateCurViewWithQC block.qc).bind fun r1 =>
    let p1 := r1.1
    let acts1 := r1.2.1
    if block.view ≠ p1.currentView then some r1
    else
      match p1.timeoutControl.timerInfo with
      | none => none
      | some ti =>
        if ti.mode ≠ .replicaTimeout then some (p1, acts1, none, false)
        else
          (p1.actOnBlockForCurView block isLeaderForNextView).map fun r2 =>
            if r2.2.2.2 = false then (r2.1, acts1 ++ r2.2.1, r1.2.2)
            else (r2.1, acts1 ++ r2.2.1, r2.2.2)

/-- Method OnTimeout: notifies OnReachedTimeout with the current timer metadata,
grows the controller timeout, and force-advances to the next view. -/
def AdrenalinePaceMaker.onTimeout (p : AdrenalinePaceMaker) :
    Option (AdrenalinePaceMaker × List PMAction × NewViewEvent) :=
  (p.gotoView (p.currentView + 1)).map fun r =>
    (r.1, [.onReachedTimeout p.timeoutControl.timerInfo, .ctlOnTimeout] ++ r.2.1,
     r.2.2)

/-- Method Start: guarded by the started flag, so only the first call starts
the ReplicaTimeout timer for the current view; later calls return immediately. -/
def AdrenalinePaceMaker.start (p : AdrenalinePaceMaker) :
    AdrenalinePaceMaker × List PMAction :=
  if p.started then (p, [])
  else
    let st := p.timeoutControl.startTimeout .replicaTimeout p.currentView
    ({ p with started := true, timeoutControl := st.1 },
     [.startTimeout .replicaTimeout p.currentView,
      .onStartingTimeout .replicaTimeout p.currentView])

/-- Operations of the pacemaker driven by external inputs, for statements about
call sequences: processing a quorum certificate (UpdateCurViewWithQC) and a
local timeout (OnTimeout). -/
inductive PMOp where
  | processQC (qc : QuorumCertificate)
  | localTimeout
deriving DecidableEq, Repr

/-- One pacemaker operation, returning the new state, the action trace and the
new-view event if any. -/
def pmStep (p : AdrenalinePaceMaker) :
    PMOp → Option (AdrenalinePaceMaker × List PMAction × Option NewViewEvent)
  | .processQC qc => (p.updateCurViewWithQC qc).map fun r => (r.1, r.2.1, r.2.2.1)
  | .localTimeout => (p.onTimeout).map fun r => (r.1, r.2.1, some r.2.2)

/-- Iterated pacemaker operations: the list of states after each call. -/
def pmRun (p : AdrenalinePaceMaker) :
    List PMOp → Option (List AdrenalinePaceMaker)
  | [] => some []
  | op :: ops =>
    (pmStep p op).bind fun r => (pmRun r.1 ops).map fun ps => r.1 :: ps

/-!
Part II: the weighted signature aggregator (package signature,
WeightedSignatureAggregator). Node identifiers (flow.Identifier) are modelled
as naturals; a signature is an opaque value together with an abstract flag
stating whether it is cryptographically valid for its signer under the stored
keys and message, which is all the cryptography the contract depends on.
-/

/-- Signature value (crypto.Signature): opaque data plus abstract validity. -/
structure Signature where
  data : Nat
  valid : Bool
deriving DecidableEq, Repr

/-- Committee member (flow.Identity): node identifier and stake weight. -/
structure Identity where
  nodeID : Nat
  stake : Nat
deriving DecidableEq, Repr

/-- Per-signer record held by the aggregator (struct signerInfo): stake weight
and low-level index. -/
structure SignerInfo where
  weight : Nat
  index : Nat
deriving DecidableEq, Repr

/-- Modelled from the spec: the low-level index-based BLS aggregator
(module/signature.SignatureAggregatorSameMessage) is not part of the sources at
hand; only its caller is. Per the spec it is constructed over the list of
public keys and addresses signers by index 0..N-1; TrustedAdd records a
signature for an index without verifying it; Aggregate performs the
cryptographic aggregation together with a final validity check of the combined
signature and reports the indices of the collected signers. The cryptographic
content is abstracted: signatures are recorded in arrival order, the combined
signature is an opaque value, and the final check fails exactly when nothing
was collected or some collected signature is invalid. -/
structure SignatureAggregatorSameMessage where
  n : Nat
  sigs : List (Nat × Signature)
deriving DecidableEq, Repr

/-- Modelled from the spec: the low-level TrustedAdd records the signature for
a signer index, failing on an index outside 0..N-1. -/
def SignatureAggregatorSameMessage.trustedAdd (a : SignatureAggregatorSameMessage)
    (signer : Nat) (sig : Signature) :
    Except Unit SignatureAggregatorSameMessage :=
  if signer < a.n then .ok { a with sigs := a.sigs ++ [(signer, sig)] }
  else .error ()

/-- Modelled from the spec: the low-level Aggregate returns the indices of the
collected signers and the combined signature, failing when nothing was
collected or the final validity check of the combined signature fails. -/
def SignatureAggregatorSameMessage.aggregate (a : SignatureAggregatorSameMessage) :
    Except Unit (List Nat × Nat) :=
  if !a.sigs.isEmpty && a.sigs.all (fun q => q.2.valid) then
    .ok (a.sigs.map Prod.fst, (a.sigs.map (fun q => q.2.data)).sum)
  else .error ()

/-- Lookup table from node ID to signer info, built exactly as the constructor
loop does: for each position i the entry for ids[i].NodeID is overwritten, so a
lookup must find the entry written last; pushing to the front achieves this. -/
def buildIdToInfo (ids : List Identity) : List (Nat × SignerInfo) :=
  ids.enum.foldl (fun m q => (q.2.nodeID, ⟨q.2.stake, q.1⟩) :: m) []

/-- Errors surfaced by TrustedAdd (engine.InvalidInputError,
engine.DuplicatedEntryError, and the wrapped failure of the low-level
aggregator). -/
inductive AggError where
  | invalidInput
  | duplicatedEntry
  | genericFailure
deriving DecidableEq, Repr

/-- State of the weighted aggregator (struct WeightedSignatureAggregator): the
low-level aggregator, the full identity list, the id-to-info lookup table built
by the constructor, the collected weight and the set of collected IDs. -/
structure WeightedSignatureAggregator where
  aggregator : SignatureAggregatorSameMessage
  ids : List Identity
  idToInfo : List (Nat × SignerInfo)
  totalWeight : Nat
  collectedIDs : List Nat
deriving DecidableEq, Repr

/-- Constructor NewWeightedSignatureAggregator: fails when the identity and key
lists have different lengths; otherwise builds the id-to-info index and starts
with no collected signatures and zero weight. Keys carry no further content in
the model, only their count. -/
def newWeightedSignatureAggregator (ids : List Identity) (pks : List Unit) :
    Except Unit WeightedSignatureAggregator :=
  if ids.length ≠ pks.length then .error ()
  else .ok { aggregator := ⟨pks.length, []⟩
           , ids := ids
           , idToInfo := buildIdToInfo ids
           , totalWeight := 0
           , collectedIDs := [] }

/-- Method hasSignature: whether the signer already contributed. -/
def WeightedSignatureAggregator.hasSignature (w : WeightedSignatureAggregator)
    (signerID : Nat) : Bool :=
  w.collectedIDs.contains signerID

/-- Method TotalWeight: the collected weight. -/
def WeightedSignatureAggregator.lockedTotalWeight (w : WeightedSignatureAggregator) :
    Nat :=
  w.totalWeight

/-- Method TrustedAdd: rejects an unknown signer and a duplicate contribution,
returning the unchanged total weight with the error; otherwise forwards the
signature to the low-level aggregator (whose failure is wrapped and leaves the
collected set and weight untouched) and then records the signer and adds its
weight. The returned number is the total weight after the call in every path. -/
def WeightedSignatureAggregator.trustedAdd (w : WeightedSignatureAggregator)
    (signerID : Nat) (sig : Signature) :
    WeightedSignatureAggregator × Nat × Option AggError :=
  match w.idToInfo.lookup signerID with
  | none => (w, w.lockedTotalWeight, some .invalidInput)
  | some info =>
    if w.hasSignature signerID then (w, w.lockedTotalWeight, some .duplicatedEntry)
    else
      match w.aggregator.trustedAdd info.index sig with
      | .error _ => (w, w.totalWeight, some .genericFailure)
      | .ok agg =>
        let w1 := { w with aggregator := agg
                         , collectedIDs := signerID :: w.collectedIDs
                         , totalWeight := w.totalWeight + info.weight }
        (w1, w1.totalWeight, none)

/-- Translation loop of Aggregate: maps low-level signer indices back to node
IDs through the identity list; an index outside the identity list is a Go
panic, modelled as None. -/
def lookupSignerIDs (ids : List Identity) : List Nat → Option (List Nat)
  | [] => some []
  | i :: rest =>
    match ids.get? i with
    | none => none
    | some e => (lookupSignerIDs ids rest).map (fun l => e.nodeID :: l)

/-- Method Aggregate: runs the low-level aggregation (with its final validity
check) and translates the returned indices back to node IDs through the stored
identity list. -/
def WeightedSignatureAggregator.aggregate (w : WeightedSignatureAggregator) :
    Option (Except Unit (List Nat × Nat)) :=
  match w.aggregator.aggregate with
  | .error _ => some (.error ())
  | .ok (indices, s) =>
    (lookupSignerIDs w.ids indices).map (fun signerIDs => .ok (signerIDs, s))

/-- Folding TrustedAdd over a list of (signer, signature) pairs, defined only
when every call succeeds. -/
def trustedAddAll (w : WeightedSignatureAggregator) :
    List (Nat × Signature) → Option WeightedSignatureAggregator
  | [] => some w
  | q :: rest =>
    match w.trustedAdd q.1 q.2 with
    | (w1, _, none) => trustedAddAll w1 rest
    | (_, _, some _) => none

/-!
Part III: properties of the pacemaker.
-/

lemma gotoView_some (p : AdrenalinePaceMaker) (v : Nat) (h : p.currentView < v) :
    p.gotoView v =
      some ({ p with currentView := v,
                     timeoutControl := ⟨some ⟨.replicaTimeout, v⟩⟩ },
            (if p.currentView + 1 < v then [PMAction.onSkippedAhead v] else []) ++
              [.startTimeout .replicaTimeout v, .onStartingTimeout .replicaTimeout v],
            ⟨v⟩) := by
  simp only [AdrenalinePaceMaker.gotoView, Controller.startTimeout]
  rw [if_neg (by omega)]

lemma gotoView_none (p : AdrenalinePaceMaker) (v : Nat) (h : v ≤ p.currentView) :
    p.gotoView v = none := by
  simp only [AdrenalinePaceMaker.gotoView]
  rw [if_pos h]

lemma updateCurViewWithQC_stale (p : AdrenalinePaceMaker) (qc : QuorumCertificate)
    (h : qc.view < p.currentView) :
    p.updateCurViewWithQC qc = some (p, [], none, false) := by
  simp only [AdrenalinePaceMaker.updateCurViewWithQC]
  rw [if_pos h]

lemma updateCurViewWithQC_fresh (p : AdrenalinePaceMaker) (qc : QuorumCertificate)
    (h : p.currentView ≤ qc.view) :
    p.updateCurViewWithQC qc =
      some ({ p with currentView := qc.view + 1,
                     timeoutControl := ⟨some ⟨.replicaTimeout, qc.view + 1⟩⟩ },
            [PMAction.onProgressBeforeTimeout, PMAction.adrenaline] ++
              ((if p.currentView + 1 < qc.view + 1 then
                  [PMAction.onSkippedAhead (qc.view + 1)] else []) ++
                [.startTimeout .replicaTimeout (qc.view + 1),
                 .onStartingTimeout .replicaTimeout (qc.view + 1)]),
            some ⟨qc.view + 1⟩, true) := by
  simp only [AdrenalinePaceMaker.updateCurViewWithQC]
  rw [if_neg (by omega), gotoView_some p (qc.view + 1) (by omega)]
  rfl

lemma onTimeout_eq (p : AdrenalinePaceMaker) :
    p.onTimeout =
      some ({ p with currentView := p.currentView + 1,
                     timeoutControl := ⟨some ⟨.replicaTimeout, p.currentView + 1⟩⟩ },
            [PMAction.onReachedTimeout p.timeoutControl.timerInfo, PMAction.ctlOnTimeout,
             .startTimeout .replicaTimeout (p.currentView + 1),
             .onStartingTimeout .replicaTimeout (p.currentView + 1)],
            ⟨p.currentView + 1⟩) := by
  simp only [AdrenalinePaceMaker.onTimeout]
  rw [gotoView_some p (p.currentView + 1) (by omega)]
  simp

/-- C2: processing a QC with qc.View below the current view leaves the
pacemaker unchanged and returns no new-view event; processing a QC with
qc.View at or above the current view advances CurView to exactly qc.View + 1
and returns a NewViewEvent with that view; a NewViewEvent is returned only if
the view actually increased. -/
theorem processQC_postcondition (p : AdrenalinePaceMaker) (qc : QuorumCertificate) :
    (qc.view < p.curView →
      p.updateCurViewWithQC qc = some (p, [], none, false)) ∧
    (p.curView ≤ qc.view →
      ∃ p1 acts, p.updateCurViewWithQC qc = some (p1, acts, some ⟨qc.view + 1⟩, true) ∧
        p1.curView = qc.view + 1) ∧
    (∀ p1 acts ev occurred,
      p.updateCurViewWithQC qc = some (p1, acts, ev, occurred) →
      ev.isSome → p.curView < p1.curView) := by
  refine ⟨fun h => updateCurViewWithQC_stale p qc h, fun h => ?_, ?_⟩
  · exact ⟨_, _, updateCurViewWithQC_fresh p qc h, rfl⟩
  · intro p1 acts ev occurred hEq hev
    by_cases h : qc.view < p.currentView
    · rw [updateCurViewWithQC_stale p qc h] at hEq
      have h1 := Option.some.inj hEq
      have hev2 : ev = none := (congrArg (fun r => r.2.2.1) h1).symm
      rw [hev2] at hev
      simp at hev
    · rw [updateCurViewWithQC_fresh p qc (by omega)] at hEq
      have h1 := Option.some.inj hEq
      have hp1 : p1 =
          { p with currentView := qc.view + 1,
                   timeoutControl := ⟨some ⟨.replicaTimeout, qc.view + 1⟩⟩ } :=
        (congrArg Prod.fst h1).symm
      rw [hp1]
      simp [AdrenalinePaceMaker.curView]
      omega

/-- Witness for processQC_postcondition at a stale and a fresh concrete input. -/
theorem processQC_postcondition_witness :
    (⟨4, ⟨none⟩, false⟩ : AdrenalinePaceMaker).updateCurViewWithQC ⟨2, 0⟩ =
      some (⟨4, ⟨none⟩, false⟩, [], none, false) ∧
    ∃ p1 acts,
      (⟨4, ⟨none⟩, false⟩ : AdrenalinePaceMaker).updateCurViewWithQC ⟨6, 0⟩ =
        some (p1, acts, some ⟨7⟩, true) ∧ p1.curView = 7 :=
  ⟨(processQC_postcondition ⟨4, ⟨none⟩, false⟩ ⟨2, 0⟩).1 (by decide),
   (processQC_postcondition ⟨4, ⟨none⟩, false⟩ ⟨6, 0⟩).2.1 (by decide)⟩

/-- C8: constructing a pacemaker with startView at least 1 succeeds and yields
an instance whose CurView equals startView; constructing with view 0 returns a
configuration error and no instance. -/
theorem pacemaker_construction_requires_positive_view (startView : Nat)
    (c : Controller) :
    (1 ≤ startView →
      ∃ pm, pacemakerNew startView c = .ok pm ∧ pm.curView = startView ∧
        pm.started = false) ∧
    (startView < 1 → pacemakerNew startView c = .error ()) := by
  constructor
  · intro h
    refine ⟨⟨startView, c, false⟩, ?_, rfl, rfl⟩
    simp only [pacemakerNew]
    rw [if_neg (by omega)]
  · intro h
    simp only [pacemakerNew]
    rw [if_pos h]

/-- Witness for pacemaker_construction_requires_positive_view at startView 1
and startView 0. -/
theorem pacemaker_construction_requires_positive_view_witness :
    (∃ pm, pacemakerNew 1 ⟨none⟩ = .ok pm ∧ pm.curView = 1 ∧
      pm.started = false) ∧
    pacemakerNew 0 ⟨none⟩ = .error () :=
  ⟨(pacemaker_construction_requires_positive_view 1 ⟨none⟩).1 (by decide),
   (pacemaker_construction_requires_positive_view 0 ⟨none⟩).2 (by decide)⟩

/-- C7: the first call to Start begins the ReplicaTimeout timer for the current
view; a call on an already started pacemaker returns the state unchanged with
no actions (no timer restart, no notification); Start never changes CurView;
and the call following any Start call is a no-op. -/
theorem start_idempotent (p : AdrenalinePaceMaker) :
    (p.started = false →
      p.start = ({ p with started := true,
                          timeoutControl := ⟨some ⟨.replicaTimeout, p.currentView⟩⟩ },
                 [.startTimeout .replicaTimeout p.curView,
                  .onStartingTimeout .replicaTimeout p.curView])) ∧
    (p.started = true → p.start = (p, [])) ∧
    p.start.1.curView = p.curView ∧
    p.start.1.start = (p.start.1, []) := by
  refine ⟨fun h => ?_, fun h => ?_, ?_, ?_⟩
  · simp [AdrenalinePaceMaker.start, h, Controller.startTimeout,
      AdrenalinePaceMaker.curView]
  · simp [AdrenalinePaceMaker.start, h]
  · by_cases h : p.started <;>
      simp [AdrenalinePaceMaker.start, h, Controller.startTimeout,
        AdrenalinePaceMaker.curView]
  · by_cases h : p.started <;>
      simp [AdrenalinePaceMaker.start, h, Controller.startTimeout]

/-- Witness for start_idempotent at a concrete unstarted pacemaker. -/
theorem start_idempotent_witness :
    (⟨3, ⟨none⟩, false⟩ : AdrenalinePaceMaker).start =
      (⟨3, ⟨some ⟨.replicaTimeout, 3⟩⟩, true⟩,
       [.startTimeout .replicaTimeout 3, .onStartingTimeout .replicaTimeout 3]) ∧
    (⟨3, ⟨some ⟨.replicaTimeout, 3⟩⟩, true⟩ : AdrenalinePaceMaker).start =
      (⟨3, ⟨some ⟨.replicaTimeout, 3⟩⟩, true⟩, []) :=
  ⟨(start_idempotent ⟨3, ⟨none⟩, false⟩).1 rfl,
   (start_idempotent ⟨3, ⟨some ⟨.replicaTimeout, 3⟩⟩, true⟩).2.1 rfl⟩

/-- C10: a block for the current view arriving while the active timer is
already in VoteCollectionTimeout mode does not restart the vote collection
timer, does not change the state at all, performs no external call, and
returns no new-view event. -/
theorem second_block_for_current_view_noop (p : AdrenalinePaceMaker)
    (block : Block) (isLeaderForNextView : Bool) (ti : TimerInfo)
    (hview : block.view = p.curView)
    (hti : p.timeoutControl.timerInfo = some ti)
    (hmode : ti.mode = .voteCollectionTimeout)
    (hqc : block.qc.view < p.curView) :
    p.updateCurViewWithBlock block isLeaderForNextView =
      some (p, [], none, false) := by
  simp [AdrenalinePaceMaker.updateCurViewWithBlock,
    updateCurViewWithQC_stale p block.qc hqc, hview, hti, hmode,
    AdrenalinePaceMaker.curView]

/-- Witness for second_block_for_current_view_noop at a concrete pacemaker in
the vote collection phase. -/
theorem second_block_for_current_view_noop_witness :
    (⟨2, ⟨some ⟨.voteCollectionTimeout, 2⟩⟩, true⟩ :
        AdrenalinePaceMaker).updateCurViewWithBlock ⟨9, 2, ⟨1, 0⟩⟩ false =
      some (⟨2, ⟨some ⟨.voteCollectionTimeout, 2⟩⟩, true⟩, [], none, false) :=
  second_block_for_current_view_noop ⟨2, ⟨some ⟨.voteCollectionTimeout, 2⟩⟩, true⟩
    ⟨9, 2, ⟨1, 0⟩⟩ false ⟨.voteCollectionTimeout, 2⟩ (by decide) (by decide)
    (by decide) (by decide)

/-- Counterexample to C5: a concrete view transition of the pacemaker (from
view 2 to view 3, triggered by a QC for the current view) whose complete trace
of external calls contains no persistence call whatsoever; the pacemaker has no
Persister collaborator, so the transition is complete without any LivenessData
write. -/
theorem gotoView_no_persist_counterexample :
    (⟨2, ⟨some ⟨.replicaTimeout, 2⟩⟩, true⟩ :
        AdrenalinePaceMaker).updateCurViewWithQC ⟨2, 7⟩ =
      some (⟨3, ⟨some ⟨.replicaTimeout, 3⟩⟩, true⟩,
            [.onProgressBeforeTimeout, .adrenaline,
             .startTimeout .replicaTimeout 3, .onStartingTimeout .replicaTimeout 3],
            some ⟨3⟩, true) ∧
    List.filter PMAction.isPersist
      [PMAction.onProgressBeforeTimeout, PMAction.adrenaline,
       PMAction.startTimeout .replicaTimeout 3,
       PMAction.onStartingTimeout .replicaTimeout 3] = [] := by
  constructor
  · decide
  · decide

/-- C5 as amended: every view transition of the pacemaker (the internal
gotoView primitive, reached from QC processing and from local timeout) updates
the current view, synchronously starts a fresh ReplicaTimeout timer and emits
the OnStartingTimeout notification, but performs no persistence call at all:
this pacemaker has no Persister collaborator and writes no LivenessData. -/
theorem view_transition_without_persistence (p : AdrenalinePaceMaker)
    (newView : Nat) (p1 : AdrenalinePaceMaker) (acts : List PMAction)
    (ev : NewViewEvent) (h : p.gotoView newView = some (p1, acts, ev)) :
    p1.curView = newView ∧
    p1.timeoutControl.timerInfo = some ⟨.replicaTimeout, newView⟩ ∧
    PMAction.startTimeout .replicaTimeout newView ∈ acts ∧
    PMAction.onStartingTimeout .replicaTimeout newView ∈ acts ∧
    acts.filter PMAction.isPersist = [] ∧
    ev = ⟨newView⟩ := by
  by_cases hc : newView ≤ p.currentView
  · rw [gotoView_none p newView hc] at h
    exact absurd h (by simp)
  · rw [gotoView_some p newView (by omega)] at h
    have h1 := Option.some.inj h
    have hp1 : p1 =
        { p with currentView := newView,
                 timeoutControl := ⟨some ⟨.replicaTimeout, newView⟩⟩ } :=
      (congrArg Prod.fst h1).symm
    have hacts : acts =
        (if p.currentView + 1 < newView then
          [PMAction.onSkippedAhead newView] else []) ++
          [.startTimeout .replicaTimeout newView,
           .onStartingTimeout .replicaTimeout newView] :=
      (congrArg (fun r => r.2.1) h1).symm
    have hev : ev = ⟨newView⟩ := (congrArg (fun r => r.2.2) h1).symm
    subst hp1
    subst hacts
    subst hev
    refine ⟨rfl, rfl, ?_, ?_, ?_, rfl⟩
    · simp
    · simp
    · by_cases hs : p.currentView + 1 < newView <;>
        simp [hs, List.filter, PMAction.isPersist]

/-- Witness for view_transition_without_persistence at a concrete transition. -/
theorem view_transition_without_persistence_witness :
    (⟨1, ⟨none⟩, false⟩ : AdrenalinePaceMaker).curView = 5 ∨
    ((⟨5, ⟨some ⟨.replicaTimeout, 5⟩⟩, false⟩ : AdrenalinePaceMaker).curView = 5 ∧
      [PMAction.onSkippedAhead 5, PMAction.startTimeout .replicaTimeout 5,
       PMAction.onStartingTimeout .replicaTimeout 5].filter PMAction.isPersist =
        []) :=
  Or.inr ⟨(view_transition_without_persistence ⟨1, ⟨none⟩, false⟩ 5
      ⟨5, ⟨some ⟨.replicaTimeout, 5⟩⟩, false⟩
      [.onSkippedAhead 5, .startTimeout .replicaTimeout 5,
       .onStartingTimeout .replicaTimeout 5] ⟨5⟩ (by decide)).1,
    (view_transition_without_persistence ⟨1, ⟨none⟩, false⟩ 5
      ⟨5, ⟨some ⟨.replicaTimeout, 5⟩⟩, false⟩
      [.onSkippedAhead 5, .startTimeout .replicaTimeout 5,
       .onStartingTimeout .replicaTimeout 5] ⟨5⟩ (by decide)).2.2.2.2.1⟩

lemma pmStep_spec (p : AdrenalinePaceMaker) (op : PMOp) :
    ∃ r, pmStep p op = some r ∧
      p.currentView ≤ r.1.currentView ∧
      (op = .localTimeout → r.1.currentView = p.currentView + 1) ∧
      (∀ qc, op = .processQC qc →
        (qc.view < p.currentView → r.1 = p) ∧
        (p.currentView ≤ qc.view → r.1.currentView = qc.view + 1)) := by
  cases op with
  | processQC qc =>
    by_cases h : qc.view < p.currentView
    · have heq : pmStep p (.processQC qc) = some (p, [], none) := by
        simp [pmStep, updateCurViewWithQC_stale p qc h]
      refine ⟨(p, [], none), heq, le_refl _, by simp, ?_⟩
      intro qc2 hq
      injection hq with hq2
      subst hq2
      exact ⟨fun _ => rfl, fun h2 => absurd h2 (by omega)⟩
    · have heq : pmStep p (.processQC qc) =
          some ({ p with
                    currentView := qc.view + 1,
                    timeoutControl := ⟨some ⟨.replicaTimeout, qc.view + 1⟩⟩ },
                [PMAction.onProgressBeforeTimeout, PMAction.adrenaline] ++
                  ((if p.currentView + 1 < qc.view + 1 then
                      [PMAction.onSkippedAhead (qc.view + 1)] else []) ++
                    [.startTimeout .replicaTimeout (qc.view + 1),
                     .onStartingTimeout .replicaTimeout (qc.view + 1)]),
                some ⟨qc.view + 1⟩) := by
        simp [pmStep, updateCurViewWithQC_fresh p qc (by omega)]
      refine ⟨_, heq, by simp; omega, by simp, ?_⟩
      intro qc2 hq
      injection hq with hq2
      subst hq2
      exact ⟨fun h2 => absurd h2 h, fun _ => rfl⟩
  | localTimeout =>
    have heq : pmStep p .localTimeout =
        some ({ p with
                  currentView := p.currentView + 1,
                  timeoutControl := ⟨some ⟨.replicaTimeout, p.currentView + 1⟩⟩ },
              [PMAction.onReachedTimeout p.timeoutControl.timerInfo,
               PMAction.ctlOnTimeout,
               .startTimeout .replicaTimeout (p.currentView + 1),
               .onStartingTimeout .replicaTimeout (p.currentView + 1)],
              some ⟨p.currentView + 1⟩) := by
      simp [pmStep, onTimeout_eq p]
    exact ⟨_, heq, by simp, fun _ => rfl, by simp⟩

/-- C1: for every sequence of QC-processing and local-timeout operations the
run is defined (no defensive panic is reached), and after each call the current
view is at least its value before the call; it is unchanged on a stale QC,
advances to qc.View + 1 (an increase) on a QC whose view is at least the
current view, and increases unconditionally on a local timeout. -/
theorem pacemaker_view_monotonic (p : AdrenalinePaceMaker) (ops : List PMOp) :
    ∃ ps, pmRun p ops = some ps ∧ ps.length = ops.length ∧
      ∀ i op pBefore pAfter, ops.get? i = some op →
        (p :: ps).get? i = some pBefore → ps.get? i = some pAfter →
          pBefore.curView ≤ pAfter.curView ∧
          (op = .localTimeout → pBefore.curView < pAfter.curView) ∧
          (∀ qc, op = .processQC qc →
            (qc.view < pBefore.curView → pAfter.curView = pBefore.curView) ∧
            (pBefore.curView ≤ qc.view → pBefore.curView < pAfter.curView)) := by
  induction ops generalizing p with
  | nil => exact ⟨[], rfl, rfl, fun i op pB pA h => by simp at h⟩
  | cons op ops ih =>
    obtain ⟨r, hstep, hmono, htime, hqc⟩ := pmStep_spec p op
    obtain ⟨ps, hrun, hlen, hprop⟩ := ih r.1
    refine ⟨r.1 :: ps, ?_, by simp [hlen], ?_⟩
    · simp [pmRun, hstep, hrun]
    · intro i opi pB pA hop hB hA
      cases i with
      | zero =>
        simp at hop hB hA
        subst hop
        subst hB
        subst hA
        refine ⟨hmono, fun h => ?_, fun qc h => ?_⟩
        · subst h
          have := htime rfl
          simp [AdrenalinePaceMaker.curView, this]
        · subst h
          obtain ⟨hstale, hfresh⟩ := hqc qc rfl
          refine ⟨fun hlt => ?_, fun hle => ?_⟩
          · rw [hstale hlt]
          · have hle2 : p.currentView ≤ qc.view := hle
            have := hfresh hle
            simp [AdrenalinePaceMaker.curView, this]
            omega
      | succ j =>
        simp only [List.get?] at hop hB hA
        exact hprop j opi pB pA hop hB hA
/-- Witness for pacemaker_view_monotonic: a concrete two-step run where a local
timeout strictly increases the view. -/
theorem pacemaker_view_monotonic_witness :
    (⟨2, ⟨none⟩, false⟩ : AdrenalinePaceMaker).curView <
      (⟨3, ⟨some ⟨.replicaTimeout, 3⟩⟩, false⟩ : AdrenalinePaceMaker).curView := by
  obtain ⟨ps, hrun, _, h⟩ :=
    pacemaker_view_monotonic ⟨2, ⟨none⟩, false⟩ [.localTimeout]
  have hcomp : pmRun (⟨2, ⟨none⟩, false⟩ : AdrenalinePaceMaker) [.localTimeout] =
      some [⟨3, ⟨some ⟨.replicaTimeout, 3⟩⟩, false⟩] := by decide
  rw [hcomp] at hrun
  have hps := Option.some.inj hrun
  subst hps
  exact (h 0 .localTimeout ⟨2, ⟨none⟩, false⟩
    ⟨3, ⟨some ⟨.replicaTimeout, 3⟩⟩, false⟩ rfl rfl rfl).2.1 rfl

/-!
Part IV: properties of the weighted signature aggregator.
-/

lemma trustedAdd_success (w : WeightedSignatureAggregator) (signerID : Nat)
    (sig : Signature) (w1 : WeightedSignatureAggregator) (ret : Nat)
    (h : w.trustedAdd signerID sig = (w1, ret, none)) :
    ∃ info agg, w.idToInfo.lookup signerID = some info ∧
      w.hasSignature signerID = false ∧
      w.aggregator.trustedAdd info.index sig = .ok agg ∧
      w1 = { w with aggregator := agg,
                    collectedIDs := signerID :: w.collectedIDs,
                    totalWeight := w.totalWeight + info.weight } ∧
      ret = w.totalWeight + info.weight := by
  cases hl : w.idToInfo.lookup signerID with
  | none =>
    rw [show w.trustedAdd signerID sig = (w, w.lockedTotalWeight, some .invalidInput) from
      by simp [WeightedSignatureAggregator.trustedAdd, hl]] at h
    simp at h
  | some info =>
    by_cases hh : w.hasSignature signerID
    · rw [show w.trustedAdd signerID sig = (w, w.lockedTotalWeight, some .duplicatedEntry) from
        by simp [WeightedSignatureAggregator.trustedAdd, hl, hh]] at h
      simp at h
    · cases ha : w.aggregator.trustedAdd info.index sig with
      | error u =>
        rw [show w.trustedAdd signerID sig = (w, w.totalWeight, some .genericFailure) from
          by simp [WeightedSignatureAggregator.trustedAdd, hl, hh, ha]] at h
        simp at h
      | ok agg =>
        rw [show w.trustedAdd signerID sig =
            ({ w with aggregator := agg,
                      collectedIDs := signerID :: w.collectedIDs,
                      totalWeight := w.totalWeight + info.weight },
             w.totalWeight + info.weight, none) from
          by simp [WeightedSignatureAggregator.trustedAdd, hl, hh, ha]] at h
        have h1 : w1 = { w with aggregator := agg,
                                collectedIDs := signerID :: w.collectedIDs,
                                totalWeight := w.totalWeight + info.weight } :=
          (congrArg Prod.fst h).symm
        have h2 : ret = w.totalWeight + info.weight :=
          (congrArg (fun r => r.2.1) h).symm
        exact ⟨info, agg, rfl, by simp [hh], ha, h1, h2⟩

/-- C3: when TrustedAdd succeeds for a signer and is then called again with the
same signer, the second call returns a DuplicatedEntry error, leaves the state
untouched, and returns the current total weight; the total after the first
call counts the signer weight exactly once and is the value the first call
returned. -/
theorem trustedAdd_at_most_once (w : WeightedSignatureAggregator)
    (signerID : Nat) (sig1 sig2 : Signature) (w1 : WeightedSignatureAggregator)
    (ret1 : Nat) (h : w.trustedAdd signerID sig1 = (w1, ret1, none)) :
    w1.trustedAdd signerID sig2 =
      (w1, w1.lockedTotalWeight, some .duplicatedEntry) ∧
    ∃ info, w.idToInfo.lookup signerID = some info ∧
      w1.totalWeight = w.totalWeight + info.weight ∧
      ret1 = w1.totalWeight := by
  obtain ⟨info, agg, hl, hh, ha, hw1, hret⟩ :=
    trustedAdd_success w signerID sig1 w1 ret1 h
  constructor
  · have hl1 : w1.idToInfo.lookup signerID = some info := by rw [hw1]; exact hl
    have hh1 : w1.hasSignature signerID = true := by
      rw [hw1]
      simp [WeightedSignatureAggregator.hasSignature]
    simp [WeightedSignatureAggregator.trustedAdd, hl1, hh1]
  · exact ⟨info, hl, by rw [hw1], by rw [hw1, hret]⟩

/-- Witness for trustedAdd_at_most_once at a concrete two-signer aggregator. -/
theorem trustedAdd_at_most_once_witness :
    (⟨⟨2, [(0, ⟨1, true⟩)]⟩, [⟨10, 3⟩, ⟨11, 5⟩], buildIdToInfo [⟨10, 3⟩, ⟨11, 5⟩],
        3, [10]⟩ : WeightedSignatureAggregator).trustedAdd 10 ⟨2, true⟩ =
      (⟨⟨2, [(0, ⟨1, true⟩)]⟩, [⟨10, 3⟩, ⟨11, 5⟩], buildIdToInfo [⟨10, 3⟩, ⟨11, 5⟩],
        3, [10]⟩, 3, some .duplicatedEntry) := by
  have h := (trustedAdd_at_most_once
    ⟨⟨2, []⟩, [⟨10, 3⟩, ⟨11, 5⟩], buildIdToInfo [⟨10, 3⟩, ⟨11, 5⟩], 0, []⟩ 10
    ⟨1, true⟩ ⟨2, true⟩
    ⟨⟨2, [(0, ⟨1, true⟩)]⟩, [⟨10, 3⟩, ⟨11, 5⟩], buildIdToInfo [⟨10, 3⟩, ⟨11, 5⟩],
      3, [10]⟩ 3 (by rfl)).1
  exact h

/-- C9: whenever TrustedAdd returns an error, for any reason, the aggregator
state is unchanged (in particular the collected signer set and the total
weight), and the weight returned with the error is the total weight from
before the call. -/
theorem trustedAdd_error_atomicity (w : WeightedSignatureAggregator)
    (signerID : Nat) (sig : Signature) (w1 : WeightedSignatureAggregator)
    (ret : Nat) (e : AggError)
    (h : w.trustedAdd signerID sig = (w1, ret, some e)) :
    w1 = w ∧ w1.collectedIDs = w.collectedIDs ∧
    w1.totalWeight = w.totalWeight ∧ ret = w.totalWeight := by
  cases hl : w.idToInfo.lookup signerID with
  | none =>
    rw [show w.trustedAdd signerID sig = (w, w.lockedTotalWeight, some .invalidInput) from
      by simp [WeightedSignatureAggregator.trustedAdd, hl]] at h
    have h1 : w1 = w := (congrArg Prod.fst h).symm
    have h2 : ret = w.totalWeight := (congrArg (fun r => r.2.1) h).symm
    exact ⟨h1, by rw [h1], by rw [h1], h2⟩
  | some info =>
    by_cases hh : w.hasSignature signerID
    · rw [show w.trustedAdd signerID sig = (w, w.lockedTotalWeight, some .duplicatedEntry) from
        by simp [WeightedSignatureAggregator.trustedAdd, hl, hh]] at h
      have h1 : w1 = w := (congrArg Prod.fst h).symm
      have h2 : ret = w.totalWeight := (congrArg (fun r => r.2.1) h).symm
      exact ⟨h1, by rw [h1], by rw [h1], h2⟩
    · cases ha : w.aggregator.trustedAdd info.index sig with
      | error u =>
        rw [show w.trustedAdd signerID sig = (w, w.totalWeight, some .genericFailure) from
          by simp [WeightedSignatureAggregator.trustedAdd, hl, hh, ha]] at h
        have h1 : w1 = w := (congrArg Prod.fst h).symm
        have h2 : ret = w.totalWeight := (congrArg (fun r => r.2.1) h).symm
        exact ⟨h1, by rw [h1], by rw [h1], h2⟩
      | ok agg =>
        rw [show w.trustedAdd signerID sig =
            ({ w with aggregator := agg,
                      collectedIDs := signerID :: w.collectedIDs,
                      totalWeight := w.totalWeight + info.weight },
             w.totalWeight + info.weight, none) from
          by simp [WeightedSignatureAggregator.trustedAdd, hl, hh, ha]] at h
        have := congrArg (fun r => r.2.2) h
        simp at this

/-- Witness for trustedAdd_error_atomicity at a concrete duplicate addition. -/
theorem trustedAdd_error_atomicity_witness :
    (⟨⟨2, [(0, ⟨1, true⟩)]⟩, [⟨10, 3⟩, ⟨11, 5⟩],
        buildIdToInfo [⟨10, 3⟩, ⟨11, 5⟩], 3, [10]⟩ :
      WeightedSignatureAggregator).collectedIDs = [10] ∧ (3 : Nat) = 3 := by
  have h := trustedAdd_error_atomicity
    ⟨⟨2, [(0, ⟨1, true⟩)]⟩, [⟨10, 3⟩, ⟨11, 5⟩],
      buildIdToInfo [⟨10, 3⟩, ⟨11, 5⟩], 3, [10]⟩ 10 ⟨2, true⟩
    ⟨⟨2, [(0, ⟨1, true⟩)]⟩, [⟨10, 3⟩, ⟨11, 5⟩],
      buildIdToInfo [⟨10, 3⟩, ⟨11, 5⟩], 3, [10]⟩ 3 .duplicatedEntry (by rfl)
  exact ⟨h.2.1 ▸ rfl, h.2.2.2 ▸ rfl⟩

lemma foldl_cons_rev {α β : Type} (f : α → β) (l : List α) (acc : List β) :
    l.foldl (fun m q => f q :: m) acc = (l.map f).reverse ++ acc := by
  induction l generalizing acc with
  | nil => simp
  | cons a l ih => simp [ih, List.append_assoc]

lemma buildIdToInfo_eq (ids : List Identity) :
    buildIdToInfo ids =
      (ids.enum.map (fun q => (q.2.nodeID, SignerInfo.mk q.2.stake q.1))).reverse := by
  simp [buildIdToInfo, foldl_cons_rev]

lemma lookup_mem {β : Type} {l : List (Nat × β)} {k : Nat} {v : β}
    (h : List.lookup k l = some v) : (k, v) ∈ l := by
  induction l with
  | nil => simp [List.lookup] at h
  | cons a l ih =>
    obtain ⟨k2, v2⟩ := a
    by_cases hk : k = k2
    · subst hk
      simp [List.lookup] at h
      simp [h]
    · simp [List.lookup, beq_false_of_ne hk] at h
      exact List.mem_cons_of_mem _ (ih h)

lemma buildIdToInfo_spec (ids : List Identity) (s : Nat) (info : SignerInfo)
    (h : (buildIdToInfo ids).lookup s = some info) :
    ∃ e, ids.get? info.index = some e ∧ e.nodeID = s ∧ e.stake = info.weight := by
  have hmem : (s, info) ∈ buildIdToInfo ids := lookup_mem h
  rw [buildIdToInfo_eq, List.mem_reverse] at hmem
  obtain ⟨⟨i, e⟩, hq, heq⟩ := List.mem_map.mp hmem
  have h1 : e.nodeID = s := congrArg Prod.fst heq
  have h2 : (SignerInfo.mk e.stake i) = info := congrArg Prod.snd heq
  have hidx : info.index = i := by rw [← h2]
  have hw : info.weight = e.stake := by rw [← h2]
  have hget : ids.get? i = some e := by
    have := List.mk_mem_enum_iff_getElem?.mp hq
    rw [List.get?_eq_getElem?]
    exact this
  exact ⟨e, by rw [hidx]; exact hget, h1, hw.symm⟩

lemma lowlevel_trustedAdd_ok (a : SignatureAggregatorSameMessage) (i : Nat)
    (s : Signature) (agg : SignatureAggregatorSameMessage)
    (h : a.trustedAdd i s = .ok agg) :
    i < a.n ∧ agg = { a with sigs := a.sigs ++ [(i, s)] } := by
  unfold SignatureAggregatorSameMessage.trustedAdd at h
  by_cases hi : i < a.n
  · rw [if_pos hi] at h
    injection h with h2
    exact ⟨hi, h2.symm⟩
  · rw [if_neg hi] at h
    exact absurd h (by simp)

lemma newWSA_ok (ids : List Identity) (pks : List Unit)
    (w0 : WeightedSignatureAggregator)
    (h : newWeightedSignatureAggregator ids pks = .ok w0) :
    w0 = ⟨⟨pks.length, []⟩, ids, buildIdToInfo ids, 0, []⟩ ∧
    ids.length = pks.length := by
  unfold newWeightedSignatureAggregator at h
  by_cases hlen : ids.length ≠ pks.length
  · rw [if_pos hlen] at h
    exact absurd h (by simp)
  · rw [if_neg hlen] at h
    push_neg at hlen
    injection h with h2
    exact ⟨h2.symm, hlen⟩

lemma trustedAddAll_spec (signers : List (Nat × Signature))
    (w w1 : WeightedSignatureAggregator)
    (h : trustedAddAll w signers = some w1) :
    w1.ids = w.ids ∧ w1.idToInfo = w.idToInfo ∧
    w1.aggregator.n = w.aggregator.n ∧
    (∀ q ∈ signers, ∃ info, w.idToInfo.lookup q.1 = some info) ∧
    w1.totalWeight = w.totalWeight +
      (signers.map (fun q =>
        ((w.idToInfo.lookup q.1).map (fun info => info.weight)).getD 0)).sum ∧
    w1.aggregator.sigs = w.aggregator.sigs ++
      signers.map (fun q =>
        (((w.idToInfo.lookup q.1).map (fun info => info.index)).getD 0, q.2)) := by
  induction signers generalizing w with
  | nil =>
    simp [trustedAddAll] at h
    subst h
    simp
  | cons q rest ih =>
    rcases hstep : w.trustedAdd q.1 q.2 with ⟨w2, ret, err⟩
    cases err with
    | some e =>
      simp only [trustedAddAll, hstep] at h
      exact Option.noConfusion h
    | none =>
      simp only [trustedAddAll, hstep] at h
      obtain ⟨info, agg, hl, hh, ha, hw2, hret⟩ :=
        trustedAdd_success w q.1 q.2 w2 ret hstep
      obtain ⟨hilt, hagg⟩ := lowlevel_trustedAdd_ok _ _ _ _ ha
      subst hagg
      subst hw2
      obtain ⟨hids, hinfo, hn, hmem, hweight, hsigs⟩ := ih _ h
      refine ⟨hids, hinfo, hn, ?_, ?_, ?_⟩
      · intro q2 hq2
        rcases List.mem_cons.mp hq2 with hq2 | hq2
        · subst hq2
          exact ⟨info, hl⟩
        · exact hmem q2 hq2
      · rw [hweight]
        simp [hl]
        omega
      · rw [hsigs]
        simp [hl]

lemma lookupSignerIDs_map (wids : List Identity) (l : List (Nat × Signature))
    (F : Nat × Signature → Nat)
    (h : ∀ q ∈ l, ∃ e, wids.get? (F q) = some e ∧ e.nodeID = q.1) :
    lookupSignerIDs wids (l.map F) = some (l.map Prod.fst) := by
  induction l with
  | nil => simp [lookupSignerIDs]
  | cons q rest ih =>
    obtain ⟨e, hget, hnid⟩ := h q (List.mem_cons_self _ _)
    rw [List.get?_eq_getElem?] at hget
    simp [lookupSignerIDs, hget, hnid,
      ih (fun q2 hq2 => h q2 (List.mem_cons_of_mem _ hq2))]

/-- C4: for distinct recognized signers all successfully added (with valid
signatures, so the final validity check of the aggregation passes), the total
weight equals exactly the sum of the signer weights, and Aggregate returns
exactly the node IDs of those signers, translated from the internal indices
back through the identity list. -/
theorem aggregation_weight_additivity (ids : List Identity) (pks : List Unit)
    (w0 : WeightedSignatureAggregator)
    (hnew : newWeightedSignatureAggregator ids pks = .ok w0)
    (signers : List (Nat × Signature)) (w : WeightedSignatureAggregator)
    (hadd : trustedAddAll w0 signers = some w)
    (_hDistinct : (signers.map Prod.fst).Nodup)
    (hvalid : ∀ q ∈ signers, q.2.valid = true)
    (hne : signers ≠ []) :
    w.lockedTotalWeight =
      (signers.map (fun q =>
        ((w0.idToInfo.lookup q.1).map (fun info => info.weight)).getD 0)).sum ∧
    ∃ aggSig, w.aggregate = some (.ok (signers.map Prod.fst, aggSig)) := by
  obtain ⟨hw0, hlen⟩ := newWSA_ok ids pks w0 hnew
  obtain ⟨hids, hinfo, hn, hmemb, hweight, hsigs⟩ :=
    trustedAddAll_spec signers w0 w hadd
  constructor
  · rw [WeightedSignatureAggregator.lockedTotalWeight, hweight, hw0]
    simp
  · have hw0info : w0.idToInfo = buildIdToInfo ids := by rw [hw0]
    have hw0ids : w0.ids = ids := by rw [hw0]
    have hw0sigs : w0.aggregator.sigs = [] := by rw [hw0]
    have hsigs2 : w.aggregator.sigs = signers.map (fun q =>
        (((w0.idToInfo.lookup q.1).map (fun info => info.index)).getD 0, q.2)) := by
      rw [hsigs, hw0sigs]
      simp
    have hcond : (!w.aggregator.sigs.isEmpty &&
        w.aggregator.sigs.all (fun q => q.2.valid)) = true := by
      rw [hsigs2]
      simp only [Bool.and_eq_true, Bool.not_eq_true']
      constructor
      · simp only [List.isEmpty_eq_false_iff_exists_mem]
        obtain ⟨q, hq⟩ := List.exists_mem_of_ne_nil signers hne
        exact ⟨_, List.mem_map_of_mem _ hq⟩
      · rw [List.all_eq_true]
        intro x hx
        obtain ⟨q, hq, hxq⟩ := List.mem_map.mp hx
        rw [← hxq]
        exact hvalid q hq
    have hagg : w.aggregator.aggregate =
        .ok (w.aggregator.sigs.map Prod.fst,
             (w.aggregator.sigs.map (fun q => q.2.data)).sum) := by
      unfold SignatureAggregatorSameMessage.aggregate
      rw [if_pos hcond]
    have hF : ∀ q ∈ signers,
        ∃ e, w.ids.get? (((w0.idToInfo.lookup q.1).map
            (fun info => info.index)).getD 0) = some e ∧ e.nodeID = q.1 := by
      intro q hq
      obtain ⟨info, hl⟩ := hmemb q hq
      obtain ⟨e, hget, hnid, _⟩ := buildIdToInfo_spec ids q.1 info
        (by rw [← hw0info]; exact hl)
      refine ⟨e, ?_, hnid⟩
      rw [hids, hw0ids, hl]
      simpa using hget
    have hlook : lookupSignerIDs w.ids (w.aggregator.sigs.map Prod.fst) =
        some (signers.map Prod.fst) := by
      rw [hsigs2]
      have : (signers.map (fun q =>
          (((w0.idToInfo.lookup q.1).map (fun info => info.index)).getD 0,
           q.2))).map Prod.fst =
          signers.map (fun q =>
            ((w0.idToInfo.lookup q.1).map (fun info => info.index)).getD 0) := by
        simp
      rw [this]
      exact lookupSignerIDs_map w.ids signers _ hF
    refine ⟨(w.aggregator.sigs.map (fun q => q.2.data)).sum, ?_⟩
    unfold WeightedSignatureAggregator.aggregate
    rw [hagg]
    simp [hlook]

/-- Witness for aggregation_weight_additivity at a concrete two-signer run. -/
theorem aggregation_weight_additivity_witness :
    (⟨⟨2, [(0, ⟨1, true⟩), (1, ⟨2, true⟩)]⟩, [⟨10, 3⟩, ⟨11, 5⟩],
        buildIdToInfo [⟨10, 3⟩, ⟨11, 5⟩], 8, [11, 10]⟩ :
      WeightedSignatureAggregator).lockedTotalWeight = 8 ∧
    ∃ aggSig,
      (⟨⟨2, [(0, ⟨1, true⟩), (1, ⟨2, true⟩)]⟩, [⟨10, 3⟩, ⟨11, 5⟩],
          buildIdToInfo [⟨10, 3⟩, ⟨11, 5⟩], 8, [11, 10]⟩ :
        WeightedSignatureAggregator).aggregate = some (.ok ([10, 11], aggSig)) := by
  have h := aggregation_weight_additivity [⟨10, 3⟩, ⟨11, 5⟩] [(), ()]
    ⟨⟨2, []⟩, [⟨10, 3⟩, ⟨11, 5⟩], buildIdToInfo [⟨10, 3⟩, ⟨11, 5⟩], 0, []⟩ (by rfl)
    [(10, ⟨1, true⟩), (11, ⟨2, true⟩)]
    ⟨⟨2, [(0, ⟨1, true⟩), (1, ⟨2, true⟩)]⟩, [⟨10, 3⟩, ⟨11, 5⟩],
      buildIdToInfo [⟨10, 3⟩, ⟨11, 5⟩], 8, [11, 10]⟩ (by rfl) (by decide)
    (by intro q hq; fin_cases hq <;> rfl) (by decide)
  refine ⟨?_, h.2⟩
  rw [h.1]
  rfl
